import Mathlib

/-!
Shallow embedding of the readability / annotation engine of the
sentence-scratcher repository.

Source layout:
* `readabilityUtils.js` : countWords, countSentences, countSyllables,
  calculateFleschKincaidGrade, calculateFleschReadingEase, analyzeSentence.
* `TiptapEditor.jsx`, two variants (A and B): classify, syllables
  (variant B only), word filters, buildDecorations, easy-word seed list
  and its asynchronous replacement.

Strings are modelled as `List Char` (tokens produced by the source's
regexes match `[\w'-]`, hence are ASCII, so ASCII case conversion
coincides with the JS one).  JS numbers are modelled as `ℚ`; the
divisions that can produce nonfinite JS values go through `JsNum`
(finite / +Inf / -Inf / NaN).
-/

set_option allowUnsafeReducibility true
attribute [local semireducible] Rat.sub Rat.add Rat.mul Rat.inv

namespace SentenceScratcher

/-- Apostrophe character (U+0027). -/
def apos : Char := Char.ofNat 39

def isAsciiUpperAlpha (c : Char) : Bool := 'A' ≤ c && c ≤ 'Z'
def isAsciiLowerAlpha (c : Char) : Bool := 'a' ≤ c && c ≤ 'z'
def isAsciiAlpha (c : Char) : Bool := isAsciiUpperAlpha c || isAsciiLowerAlpha c
def isAsciiDigit (c : Char) : Bool := '0' ≤ c && c ≤ '9'

/-- JS `toLowerCase`, restricted to the ASCII range (all tokens the source
feeds to it match `[\w'-]`, hence are ASCII). -/
def jsToLower (c : Char) : Char :=
  if isAsciiUpperAlpha c then Char.ofNat (c.toNat + 32) else c

/-- JS `toUpperCase`, restricted to the ASCII range. -/
def jsToUpper (c : Char) : Char :=
  if isAsciiLowerAlpha c then Char.ofNat (c.toNat - 32) else c

def lowerOf (w : List Char) : List Char := w.map jsToLower

def upperOf (w : List Char) : List Char := w.map jsToUpper

theorem toNat_ofNat_of_lt (n : Nat) (h : n < 55296) : (Char.ofNat n).toNat = n := by
  rw [Char.ofNat, dif_pos (Or.inl h)]
  rfl

theorem jsToUpper_ne_self {c : Char} (h : isAsciiLowerAlpha c = true) : jsToUpper c ≠ c := by
  have hc : 97 ≤ c.toNat ∧ c.toNat ≤ 122 := by
    simp only [isAsciiLowerAlpha, Bool.and_eq_true, decide_eq_true_eq] at h
    exact ⟨h.1, h.2⟩
  intro heq
  have hn : (jsToUpper c).toNat = c.toNat := by rw [heq]
  rw [jsToUpper, if_pos h] at hn
  rw [toNat_ofNat_of_lt (c.toNat - 32) (by omega)] at hn
  omega

theorem upper_not_lower {c : Char} (h : isAsciiUpperAlpha c = true) :
    isAsciiLowerAlpha c = false := by
  simp only [isAsciiUpperAlpha, Bool.and_eq_true, decide_eq_true_eq] at h
  apply Bool.eq_false_iff.mpr
  intro hl
  simp only [isAsciiLowerAlpha, Bool.and_eq_true, decide_eq_true_eq] at hl
  exact absurd (Char.le_trans hl.1 h.2) (by decide)

theorem jsToUpper_of_upper {c : Char} (h : isAsciiUpperAlpha c = true) : jsToUpper c = c := by
  unfold jsToUpper
  rw [upper_not_lower h]
  simp

/-- JS whitespace as relevant here (core of `\s`; the texts involved
contain no exotic Unicode whitespace). -/
def isWS (c : Char) : Bool := c = ' ' || c = '\t' || c = '\n' || c = '\r'

/-- JS `String.prototype.trim`. -/
def trim (s : List Char) : List Char :=
  ((s.dropWhile isWS).reverse.dropWhile isWS).reverse

/-- Maximal runs of characters satisfying `p`; `cur` is the current
run accumulated in reverse.  This is the common shape of the source's
`split`-on-delimiter-runs and `match`-of-runs regex idioms. -/
def runsAux (p : Char → Bool) : List Char → List Char → List (List Char)
  | cur, [] => if cur.isEmpty then [] else [cur.reverse]
  | cur, c :: cs =>
    if p c then runsAux p (c :: cur) cs
    else if cur.isEmpty then runsAux p [] cs
    else cur.reverse :: runsAux p [] cs

/-- `text.trim().split(/\s+/).filter(Boolean)` : the maximal runs of
non-whitespace characters (trimming and `filter(Boolean)` make the two
presentations coincide: no empty token survives). -/
def wordsOf (text : List Char) : List (List Char) :=
  runsAux (fun c => !isWS c) [] text

/-- `countWords` from readabilityUtils.js. -/
def countWords (text : List Char) : Nat := (wordsOf text).length

def isSentTerm (c : Char) : Bool := c = '.' || c = '!' || c = '?'

/-- Fragments produced by `text.split(/[.!?]+/)`, restricted to the
nonempty ones: the maximal runs of non-terminator characters.  (JS
`split` also yields empty fragments at the ends and between adjacent
terminator runs; those are discarded by the caller's nonempty-trim
filter, so they are not enumerated here.) -/
def sentenceFragments (text : List Char) : List (List Char) :=
  runsAux (fun c => !isSentTerm c) [] text

/-- `countSentences` from readabilityUtils.js:
`text.split(/[.!?]+/).filter(s => s.trim().length > 0).length || 1`. -/
def countSentences (text : List Char) : Nat :=
  let n := (sentenceFragments text).countP (fun f => !(trim f).isEmpty)
  if n = 0 then 1 else n

/- ------------------ syllable counting, readabilityUtils.js ------------------ -/

def isVowelY (c : Char) : Bool :=
  c = 'a' || c = 'e' || c = 'i' || c = 'o' || c = 'u' || c = 'y'

/-- Character class `[laeiouy]` of the suffix-stripping regex. -/
def isLAeiouy (c : Char) : Bool := c = 'l' || isVowelY c

/-- Second and third alternatives of
`replace(/(?:[^laeiouy]es|ed|[^laeiouy]e)$/, '')`, both of length 2
(tried only when the length-3 alternative did not match, since the
regex engine prefers the leftmost match position). -/
def stripTwo (w : List Char) : List Char :=
  match w.reverse with
  | 'd' :: 'e' :: rest => rest.reverse
  | 'e' :: c :: rest => if !isLAeiouy c then rest.reverse else w
  | _ => w

/-- `word.replace(/(?:[^laeiouy]es|ed|[^laeiouy]e)$/, '')`.  The
length-3 alternative `[^laeiouy]es` starts one position further left
than the length-2 ones, so it wins whenever it matches. -/
def stripInflections (w : List Char) : List Char :=
  match w.reverse with
  | 's' :: 'e' :: c :: rest => if !isLAeiouy c then rest.reverse else stripTwo w
  | _ => stripTwo w

/-- Number of matches of `/[aeiouy]{1,2}/g`: the global greedy scan
takes two vowels when it can, one otherwise. -/
def countVowelPairs : List Char → Nat
  | [] => 0
  | c :: cs =>
    if isVowelY c then
      match cs with
      | [] => 1
      | d :: ds => if isVowelY d then 1 + countVowelPairs ds else 1 + countVowelPairs (d :: ds)
    else countVowelPairs cs

/-- `countSyllables` from readabilityUtils.js. -/
def countSyllables (word : List Char) : Nat :=
  let w := word.map jsToLower
  if w.length ≤ 3 then 1
  else
    let w1 := stripInflections w
    let w2 := match w1 with
      | 'y' :: rest => rest
      | _ => w1
    let n := countVowelPairs w2
    if n = 0 then 1 else n

/- ------------------ syllables, TiptapEditor.jsx variant B ------------------ -/

/-- One pass of variant B's vowel-run-start count.  The flag carries
whether the previous character counted as a vowel.  At index 0 the JS
code evaluates `vowels.includes(w[i-1] || "")`, and `"aeiouy".includes("")`
is `true`, so a word-initial vowel never opens a run: the scan starts
with the flag set. -/
def vowelRunStartsJS : Bool → List Char → Nat
  | _, [] => 0
  | prevV, c :: cs =>
    (if isVowelY c && !prevV then 1 else 0) + vowelRunStartsJS (isVowelY c) cs

/-- `syllables` from TiptapEditor.jsx (variant B).  JS decrements a
(signed) counter for a trailing `e` and then applies `Math.max(1, ·)`;
with a Nat counter truncated subtraction yields the same final value. -/
def syllables (word : List Char) : Nat :=
  let w := (word.map jsToLower).filter (fun c => isAsciiLowerAlpha c || c = apos)
  if w.isEmpty then 0
  else if w = "queue".toList then 2
  else if w = "people".toList then 2
  else if w = "business".toList then 2
  else if w = "every".toList then 2
  else if w = "family".toList then 3
  else if w = "chocolate".toList then 3
  else
    let count := vowelRunStartsJS true w
    let count2 := if w.getLast? = some 'e' then count - 1 else count
    max 1 count2

/- ------------------ JS float values for the scoring formulas ------------------ -/

/-- The JS number values reachable by the scoring formulas: a finite
value (modelled exactly as a rational), the two infinities, or NaN. -/
inductive JsNum where
  | finite (q : ℚ)
  | posInf
  | negInf
  | nan
deriving DecidableEq, Repr

/-- JS division `a / b` for finite operands. -/
def jsDiv (a b : ℚ) : JsNum :=
  if b ≠ 0 then JsNum.finite (a / b)
  else if 0 < a then JsNum.posInf
  else if a < 0 then JsNum.negInf
  else JsNum.nan

/-- JS addition on the reachable values. -/
def addJs : JsNum → JsNum → JsNum
  | JsNum.finite a, JsNum.finite b => JsNum.finite (a + b)
  | JsNum.nan, _ => JsNum.nan
  | _, JsNum.nan => JsNum.nan
  | JsNum.posInf, JsNum.negInf => JsNum.nan
  | JsNum.negInf, JsNum.posInf => JsNum.nan
  | JsNum.posInf, _ => JsNum.posInf
  | _, JsNum.posInf => JsNum.posInf
  | JsNum.negInf, _ => JsNum.negInf
  | _, JsNum.negInf => JsNum.negInf

/-- JS multiplication by a finite constant `c`. -/
def scaleJs (c : ℚ) : JsNum → JsNum
  | JsNum.finite a => JsNum.finite (c * a)
  | JsNum.posInf => if 0 < c then JsNum.posInf else if c < 0 then JsNum.negInf else JsNum.nan
  | JsNum.negInf => if 0 < c then JsNum.negInf else if c < 0 then JsNum.posInf else JsNum.nan
  | JsNum.nan => JsNum.nan

/-- `parseFloat(x.toFixed(1))`: rounds a finite value to one decimal
place; `(±Infinity).toFixed(1)` is `"Infinity"` and `NaN.toFixed(1)` is
`"NaN"`, both parsed back unchanged.  (JS rounds ties away from zero
while `round` rounds ties up; no claim depends on exact ties.) -/
def roundJs : JsNum → JsNum
  | JsNum.finite a => JsNum.finite (((round (10 * a) : ℤ) : ℚ) / 10)
  | x => x

def fkSyllableSum (tokens : List (List Char)) : Nat :=
  (tokens.map countSyllables).sum

/-- `calculateFleschKincaidGrade` from readabilityUtils.js.  `sentences`
comes from `countSentences` (which ends in `|| 1`) and `wordCount` is
`words.length || 1`. -/
def calculateFleschKincaidGrade (text : List Char) : JsNum :=
  let words := wordsOf text
  let sentences := countSentences text
  let syll := fkSyllableSum words
  let wordCount := if words.length = 0 then 1 else words.length
  roundJs (addJs (addJs
    (scaleJs ((39 : ℚ) / 100) (jsDiv (wordCount : ℚ) (sentences : ℚ)))
    (scaleJs ((59 : ℚ) / 5) (jsDiv (syll : ℚ) (wordCount : ℚ))))
    (JsNum.finite (-(1559 : ℚ) / 100)))

/-- `calculateFleschReadingEase` from readabilityUtils.js. -/
def calculateFleschReadingEase (text : List Char) : JsNum :=
  let words := wordsOf text
  let sentences := countSentences text
  let syll := fkSyllableSum words
  let wordCount := if words.length = 0 then 1 else words.length
  roundJs (addJs (addJs
    (JsNum.finite ((206835 : ℚ) / 1000))
    (scaleJs (-(203 : ℚ) / 200) (jsDiv (wordCount : ℚ) (sentences : ℚ))))
    (scaleJs (-(423 : ℚ) / 5) (jsDiv (syll : ℚ) (wordCount : ℚ))))

structure AnalyzeResult where
  text : List Char
  wordCount : Nat
  syllableCount : Nat
  grade : JsNum
deriving DecidableEq, Repr

/-- The token list of `sentence.trim().split(/\s+/)` (no
`filter(Boolean)` here): splitting the empty string yields `[""]`, one
empty token; a nonempty trimmed string splits into exactly its maximal
non-whitespace runs. -/
def analyzeTokens (s : List Char) : List (List Char) :=
  if (trim s).isEmpty then [[]] else wordsOf s

/-- `analyzeSentence` from readabilityUtils.js: `sentenceCount` is the
constant 1, and — unlike the two global scorers — `wordCount` is NOT
floored at 1 before the second division. -/
def analyzeSentence (s : List Char) : AnalyzeResult :=
  let wordCount := countWords s
  let syllableCount := fkSyllableSum (analyzeTokens s)
  let grade := roundJs (addJs (addJs
    (scaleJs ((39 : ℚ) / 100) (jsDiv (wordCount : ℚ) 1))
    (scaleJs ((59 : ℚ) / 5) (jsDiv (syllableCount : ℚ) (wordCount : ℚ))))
    (JsNum.finite (-(1559 : ℚ) / 100)))
  ⟨trim s, wordCount, syllableCount, grade⟩

/- ------------------ sentence classifiers ------------------ -/

inductive Tag where
  | red
  | yellow
  | blue
deriving DecidableEq, Repr

def DELTA_HARD : ℚ := 1
def DELTA_VERY_HARD : ℚ := 3
def MIN_YELLOW_WORDS_FOR_GRADE : Nat := 14
def MIN_RED_WORDS_FOR_GRADE : Nat := 18
def LONG_SENTENCE_WORDS : Nat := 15
def ENABLE_BLUE_A : Bool := true
def ENABLE_BLUE_B : Bool := false
def HEMI_HARD_WORDS : Nat := 20
def HEMI_VERY_HARD_WORDS : Nat := 25

/-- `classify` from TiptapEditor.jsx variant A (lines 44-53): short
guard, inclusive delta comparisons, no absolute-length rules, blue
enabled. -/
def classifyA (words : Nat) (grade target : ℚ) : Option Tag :=
  let delta := grade - target
  if words < 8 then none
  else if DELTA_VERY_HARD ≤ delta ∧ MIN_RED_WORDS_FOR_GRADE ≤ words then some Tag.red
  else if DELTA_HARD ≤ delta ∧ MIN_YELLOW_WORDS_FOR_GRADE ≤ words then some Tag.yellow
  else if ENABLE_BLUE_A ∧ LONG_SENTENCE_WORDS ≤ words then some Tag.blue
  else none

/-- `classify` from TiptapEditor.jsx variant B (lines 432-440) with the
two absolute-length thresholds (`HEMI_VERY_HARD_WORDS`,
`HEMI_HARD_WORDS`) taken as parameters; the spec lists them as
configurable constants.  Length rules come first, then strict delta
comparisons, blue disabled, no short guard. -/
def classifyBGen (veryHard hard : Nat) (words : Nat) (grade target : ℚ) : Option Tag :=
  let delta := grade - target
  if veryHard ≤ words then some Tag.red
  else if hard ≤ words then some Tag.yellow
  else if DELTA_VERY_HARD < delta ∧ MIN_RED_WORDS_FOR_GRADE ≤ words then some Tag.red
  else if DELTA_HARD < delta ∧ MIN_YELLOW_WORDS_FOR_GRADE ≤ words then some Tag.yellow
  else if ENABLE_BLUE_B ∧ LONG_SENTENCE_WORDS ≤ words then some Tag.blue
  else none

/-- Variant B's `classify` at the source's threshold constants. -/
def classifyB : Nat → ℚ → ℚ → Option Tag :=
  classifyBGen HEMI_VERY_HARD_WORDS HEMI_HARD_WORDS

/- ------------------ word-level filters and flagging ------------------ -/

/-- `w.replace(/^'+|'+$/g, "")`: strip leading and trailing apostrophes. -/
def stripApos (w : List Char) : List Char :=
  ((w.dropWhile (fun c => c == apos)).reverse.dropWhile (fun c => c == apos)).reverse

/-- `/^https?:\/\//i.test(w) || /^www\./i.test(w)`. -/
def isUrlLike (w : List Char) : Bool :=
  let l := lowerOf w
  l.take 7 == "http://".toList || l.take 8 == "https://".toList || l.take 4 == "www.".toList

/-- `/^\d/.test(w)`. -/
def isNumberLike (w : List Char) : Bool :=
  match w with
  | c :: _ => isAsciiDigit c
  | [] => false

/-- `w.length > 1 && w === w.toUpperCase()`. -/
def isAllCaps (w : List Char) : Bool :=
  decide (1 < w.length) && (upperOf w == w)

/-- `/^[A-Z][a-z]/.test(w) && !isAllCaps(w)`. -/
def isLikelyProperNoun (w : List Char) : Bool :=
  match w with
  | c0 :: c1 :: _ => isAsciiUpperAlpha c0 && isAsciiLowerAlpha c1 && !isAllCaps w
  | _ => false

/-- `HARD_SYLLABLES_BY_TARGET[targetGrade] ?? 3` with
`HARD_SYLLABLES_BY_TARGET = { 6: 3, 8: 4, 10: 5 }`. -/
def hardSyllThreshold (t : Nat) : Nat :=
  if t = 6 then 3 else if t = 8 then 4 else if t = 10 then 5 else 3

/-- The word-flagging decision shared by the two near-duplicate loops of
`buildDecorations` (they differ only in the syllable counter: variant A
uses `countSyllables`, variant B uses `syllables`).  `tokenIndex` is the
running index of the token inside its sentence; `wOrig` the raw regex
match.  Returns whether the token is flagged as a likely hard word. -/
def hardFlagWith (sylFn : List Char → Nat) (easySet : List (List Char)) (target : Nat)
    (tokenIndex : Nat) (wOrig : List Char) : Bool :=
  let w := stripApos wOrig
  let lower := lowerOf w
  if w.isEmpty || isUrlLike w || isNumberLike w then false
  else if decide (0 < tokenIndex) && isLikelyProperNoun wOrig then false
  else if isAllCaps wOrig then false
  else
    let syl := sylFn w
    let isHard := decide (hardSyllThreshold target ≤ syl)
    let isEasy := easySet.contains lower
    !isEasy && isHard

/-- Variant A's flag decision (uses readabilityUtils' `countSyllables`). -/
def hardFlagA : List (List Char) → Nat → Nat → List Char → Bool :=
  hardFlagWith countSyllables

/-- Variant B's flag decision (uses its local `syllables`). -/
def hardFlagB : List (List Char) → Nat → Nat → List Char → Bool :=
  hardFlagWith syllables

/- ------------------ the `\b[\w'-]+\b` tokenizer ------------------ -/

/-- JS `\w`. -/
def isJsWordChar (c : Char) : Bool := isAsciiAlpha c || isAsciiDigit c || c = '_'

/-- The character class `[\w'-]`. -/
def isTokChar (c : Char) : Bool := isJsWordChar c || c = apos || c = '-'

def wordCharAt (s : List Char) (i : Nat) : Bool :=
  match s[i]? with
  | some c => isJsWordChar c
  | none => false

/-- JS `\b` at position `i`: exactly one of the adjacent positions holds
a `\w` character. -/
def boundaryAt (s : List Char) (i : Nat) : Bool :=
  (if i = 0 then false else wordCharAt s (i - 1)) != wordCharAt s i

/-- Length of the maximal `[\w'-]` run starting at `p` (the greedy `+`). -/
def runLenAt (s : List Char) (p : Nat) : Nat :=
  ((s.drop p).takeWhile isTokChar).length

/-- Backtracking of the greedy `+` against the closing `\b`: the largest
`k' ∈ [1, k]` such that a boundary holds at `p + k'`. -/
def backOff (s : List Char) (p : Nat) : Nat → Option Nat
  | 0 => none
  | k + 1 => if boundaryAt s (p + k + 1) then some (k + 1) else backOff s p k

/-- One global scan of `/\b[\w'-]+\b/g` over `s`, from position `p`,
with enough fuel; returns the `(m.index, m[0])` pairs in order. -/
def wordMatchesGo (s : List Char) : Nat → Nat → List (Nat × List Char)
  | 0, _ => []
  | fuel + 1, p =>
    if p < s.length then
      if boundaryAt s p && (match s[p]? with | some c => isTokChar c | none => false) then
        match backOff s p (runLenAt s p) with
        | some k => (p, (s.drop p).take k) :: wordMatchesGo s fuel (p + k)
        | none => wordMatchesGo s fuel (p + 1)
      else wordMatchesGo s fuel (p + 1)
    else []

def wordMatches (s : List Char) : List (Nat × List Char) :=
  wordMatchesGo s (s.length + 1) 0

/- ------------------ annotation builder (variant A) ------------------ -/

/-- The live settings read by `buildDecorations`. -/
structure Config where
  targetGrade : Nat
  showHardWords : Bool
  easySet : List (List Char)

inductive AnnKind where
  | sent (color : Tag)
  | word
deriving DecidableEq, Repr

/-- One emitted decoration: its document offsets and, for the round-trip
statement, the exact fragment (sentence or token) it was computed from. -/
structure Ann where
  fromPos : Nat
  toPos : Nat
  frag : List Char
  kind : AnnKind
deriving DecidableEq, Repr

def isTermE (c : Char) : Bool := c = '.' || c = '!' || c = '?' || c = '…'

/-- Scanner for `text.match(/[^.!?…]+[.!?…]*/g) || []`: each match is a
maximal run of non-terminators followed by the adjacent run of
terminators; terminator characters not preceded by a non-terminator
belong to no match and are skipped. -/
def splitSentGo : Bool → List Char → List Char → List (List Char)
  | _, cur, [] => if cur.isEmpty then [] else [cur.reverse]
  | inPunct, cur, c :: cs =>
    if isTermE c then
      if cur.isEmpty then splitSentGo false [] cs
      else splitSentGo true (c :: cur) cs
    else
      if inPunct then cur.reverse :: splitSentGo false [c] cs
      else splitSentGo false (c :: cur) cs

def splitIntoSentences (text : List Char) : List (List Char) :=
  splitSentGo false [] text

/-- Does `pat` occur in `text` at position `i`? -/
def matchesAt (text pat : List Char) (i : Nat) : Bool :=
  (text.drop i).take pat.length == pat

/-- JS `text.indexOf(pat, start)` (on the nonempty patterns used here):
the first `i ≥ start` at which `pat` occurs, else `none` (-1 in JS). -/
def indexOfFromGo (text pat : List Char) : Nat → Nat → Option Nat
  | 0, _ => none
  | fuel + 1, i =>
    if matchesAt text pat i then some i
    else if i < text.length then indexOfFromGo text pat fuel (i + 1)
    else none

def indexOfFrom (text pat : List Char) (start : Nat) : Option Nat :=
  indexOfFromGo text pat (text.length + 1) start

/-- JS comparison `q <= x` against a possibly nonfinite right operand
(false against NaN). -/
def qleJs (q : ℚ) : JsNum → Bool
  | JsNum.finite a => decide (q ≤ a)
  | JsNum.posInf => true
  | JsNum.negInf => false
  | JsNum.nan => false

/-- `x - t` for a finite `t` (infinities and NaN absorb). -/
def subJsConst (x : JsNum) (t : ℚ) : JsNum :=
  match x with
  | JsNum.finite a => JsNum.finite (a - t)
  | y => y

/-- Variant A's `classify` as invoked in `buildDecorations`, where the
grade argument is the raw JS number produced by `analyzeSentence`
(nonfinite exactly when the sentence had zero words). -/
def classifyAJs (words : Nat) (grade : JsNum) (target : ℚ) : Option Tag :=
  let delta := subJsConst grade target
  if words < 8 then none
  else if qleJs DELTA_VERY_HARD delta && decide (MIN_RED_WORDS_FOR_GRADE ≤ words) then some Tag.red
  else if qleJs DELTA_HARD delta && decide (MIN_YELLOW_WORDS_FOR_GRADE ≤ words) then some Tag.yellow
  else if ENABLE_BLUE_A && decide (LONG_SENTENCE_WORDS ≤ words) then some Tag.blue
  else none

/-- The word-level inner loop of variant A's `buildDecorations`: one
`Ann` per flagged token, at `wFrom = from + m.index`. -/
def emitWordAnns (cfg : Config) (fromP : Nat) (s : List Char) : List Ann :=
  (wordMatches s).enum.filterMap (fun pr =>
    if hardFlagA cfg.easySet cfg.targetGrade pr.1 pr.2.2 then
      some ⟨fromP + pr.2.1, fromP + pr.2.1 + pr.2.2.length, pr.2.2, AnnKind.word⟩
    else none)

/-- The per-sentence loop of variant A's `buildDecorations` over the
parts of one block: `searchFrom` advances past each located sentence;
fragments that trim to nothing, or that `indexOf` fails to locate, are
skipped with the search position advanced by the raw fragment length. -/
def buildGo (cfg : Config) (blockFrom : Nat) (text : List Char) :
    List (List Char) → Nat → List Ann
  | [], _ => []
  | raw :: rest, searchFrom =>
    let s := trim raw
    if s.isEmpty then buildGo cfg blockFrom text rest (searchFrom + raw.length)
    else
      match indexOfFrom text s searchFrom with
      | none => buildGo cfg blockFrom text rest (searchFrom + raw.length)
      | some startInNode =>
        let r := analyzeSentence s
        let color := classifyAJs r.wordCount r.grade (cfg.targetGrade : ℚ)
        let fromP := blockFrom + startInNode
        let sentAnns : List Ann := match color with
          | some c => [⟨fromP, fromP + s.length, s, AnnKind.sent c⟩]
          | none => []
        let wordAnns := if cfg.showHardWords then emitWordAnns cfg fromP s else []
        sentAnns ++ (wordAnns ++ buildGo cfg blockFrom text rest (startInNode + s.length))

/-- All decorations of one block node whose flattened text is `text`
and whose content starts at document offset `blockFrom` (`pos + 1`). -/
def buildBlockDecorations (cfg : Config) (blockFrom : Nat) (text : List Char) : List Ann :=
  buildGo cfg blockFrom text (splitIntoSentences text) 0

/- ------------------ easy-word set life cycle ------------------ -/

/-- The built-in seed list (`MIN_EASY_WORDS` in TiptapEditor.jsx); the
initial state of the easy-word set is `new Set(MIN_EASY_WORDS)`. -/
def MIN_EASY_WORDS : List (List Char) :=
  (["a", "about", "after", "all", "also", "an", "and", "any", "are", "as", "at", "back",
    "be", "because", "been", "before", "but", "by", "can", "come", "could", "day", "did",
    "do", "down", "each", "even", "every", "few", "find", "first", "for", "from", "get",
    "go", "good", "had", "has", "have", "he", "her", "here", "him", "his", "how", "i",
    "if", "in", "into", "is", "it", "just", "know", "like", "little", "long", "look",
    "made", "make", "man", "many", "may", "me", "men", "more", "most", "much", "must",
    "my", "new", "no", "not", "now", "of", "off", "old", "on", "one", "only", "or",
    "other", "our", "out", "over", "people", "right", "said", "see", "she", "so", "some",
    "than", "that", "the", "their", "them", "then", "there", "these", "they", "this",
    "time", "to", "two", "up", "us", "use", "very", "want", "was", "way", "we", "well",
    "went", "were", "what", "when", "where", "which", "who", "will", "with", "work",
    "would", "year", "years", "you", "your"]).map String.toList

/-- The result of the one-shot fetch of `daleChallEasyWords.json`, as it
reaches the update logic: `none` models a failed fetch or a non-array
payload (including the `r.ok ? r.json() : []` fallback collapsing to a
skipped update); `some list` an array payload. -/
def fetchedUpdate (current : List (List Char)) (payload : Option (List (List Char))) :
    List (List Char) :=
  match payload with
  | some list => if list.isEmpty then current else list.map lowerOf
  | none => current

/- ==================== claim theorems ==================== -/

/-- Claim C4: for every grade value and every targetGrade, a sentence
with wordCount < 8 classifies as none, in both classifier variants. -/
theorem claim_C4 (words : Nat) (grade target : ℚ) (h : words < 8) :
    classifyA words grade target = none ∧ classifyB words grade target = none := by
  constructor
  · unfold classifyA
    rw [if_pos h]
  · unfold classifyB classifyBGen
    rw [if_neg (by unfold HEMI_VERY_HARD_WORDS; omega),
      if_neg (by unfold HEMI_HARD_WORDS; omega),
      if_neg (fun hc => by unfold MIN_RED_WORDS_FOR_GRADE at hc; omega),
      if_neg (fun hc => by unfold MIN_YELLOW_WORDS_FOR_GRADE at hc; omega),
      if_neg (fun hc => by simp [ENABLE_BLUE_B] at hc)]

/-- Witness for C4 at the spec's example: wordCount 7, grade 50, target 6. -/
theorem claim_C4_witness :
    7 < 8 ∧ (classifyA 7 50 6 = none ∧ classifyB 7 50 6 = none) :=
  ⟨by decide, claim_C4 7 50 6 (by decide)⟩

/-- Claim C8: there is an input whose grade delta sits exactly at the
hard margin on which the two classify variants disagree (variant A uses
an inclusive comparison, variant B a strict one). -/
theorem claim_C8 :
    ∃ (words : Nat) (grade target : ℚ),
      grade - target = DELTA_HARD ∧ classifyA words grade target ≠ classifyB words grade target :=
  ⟨14, 7, 6, by decide, by decide⟩

/-- Claim C2: a sentence whose wordCount meets the very-long threshold
classifies red independently of the grade; in particular wordCount 22 is
red whenever the configurable very-long threshold is at most 22, and 25
or more words are red under the source's constants. -/
theorem claim_C2 (veryHard hard words : Nat) (grade target : ℚ) :
    (veryHard ≤ words → classifyBGen veryHard hard words grade target = some Tag.red) ∧
    (veryHard ≤ 22 → classifyBGen veryHard hard 22 grade target = some Tag.red) ∧
    (HEMI_VERY_HARD_WORDS ≤ words → classifyB words grade target = some Tag.red) := by
  refine ⟨fun h => ?_, fun h => ?_, fun h => ?_⟩
  · unfold classifyBGen
    rw [if_pos h]
  · unfold classifyBGen
    rw [if_pos h]
  · unfold classifyB classifyBGen
    rw [if_pos h]

/-- Witness for C2: a 22-word sentence with a configured very-long
threshold of 20 is red at an arbitrary grade, and 25 words are red
under the source's constants. -/
theorem claim_C2_witness :
    (20 ≤ 22 ∧ classifyBGen 20 15 22 0 6 = some Tag.red) ∧
    (HEMI_VERY_HARD_WORDS ≤ 25 ∧ classifyB 25 0 6 = some Tag.red) :=
  ⟨⟨by decide, (claim_C2 20 15 22 0 6).1 (by decide)⟩,
   ⟨by decide, (claim_C2 20 15 25 0 6).2.2 (by decide)⟩⟩

/-- Claim C1 counterexample: at wordCount 22, grade 10, target 6 the
delta rule is red-eligible (delta 4 > 3 and 22 ≥ 18) while the length
rule fires only at yellow (20 ≤ 22 < 25); variant B's classify returns
yellow, a downgrade from the delta rule's red. -/
theorem claim_C1_counterexample :
    (DELTA_VERY_HARD < (10 : ℚ) - 6 ∧ MIN_RED_WORDS_FOR_GRADE ≤ 22) ∧
    (HEMI_HARD_WORDS ≤ 22 ∧ ¬ HEMI_VERY_HARD_WORDS ≤ 22) ∧
    classifyB 22 10 6 = some Tag.yellow ∧ classifyB 22 10 6 ≠ some Tag.red := by
  refine ⟨⟨by decide, by decide⟩, ⟨by decide, by decide⟩, by decide, by decide⟩

/-- Claim C1 as amended: when the absolute-length rule and the
grade-delta rule both fire, variant B's classify returns the length
rule's tag (the length rules are checked first): red for 25 or more
words, yellow otherwise — even when the delta rule alone would have
given red. -/
theorem claim_C1_amended (words : Nat) (grade target : ℚ)
    (hlen : HEMI_HARD_WORDS ≤ words)
    (_hdelta : (DELTA_VERY_HARD < grade - target ∧ MIN_RED_WORDS_FOR_GRADE ≤ words) ∨
      (DELTA_HARD < grade - target ∧ MIN_YELLOW_WORDS_FOR_GRADE ≤ words)) :
    classifyB words grade target =
      some (if HEMI_VERY_HARD_WORDS ≤ words then Tag.red else Tag.yellow) := by
  unfold classifyB classifyBGen
  by_cases hv : HEMI_VERY_HARD_WORDS ≤ words
  · rw [if_pos hv, if_pos hv]
  · rw [if_neg hv, if_pos hlen, if_neg hv]

/-- Witness for the amended C1 at wordCount 22, grade 10, target 6. -/
theorem claim_C1_witness :
    (HEMI_HARD_WORDS ≤ 22 ∧ DELTA_VERY_HARD < (10 : ℚ) - 6 ∧ MIN_RED_WORDS_FOR_GRADE ≤ 22) ∧
    classifyB 22 10 6 = some (if HEMI_VERY_HARD_WORDS ≤ 22 then Tag.red else Tag.yellow) :=
  ⟨⟨by decide, by decide, by decide⟩,
   claim_C1_amended 22 10 6 (by decide) (Or.inl ⟨by decide, by decide⟩)⟩

/- -------- helper lemmas for the syllable and word-flag claims -------- -/

theorem countSyllables_pos (w : List Char) : 1 ≤ countSyllables w := by
  simp only [countSyllables]
  split
  · exact le_refl 1
  · split
    · exact le_refl 1
    · omega

theorem jsToLower_lower {c : Char} (h : isAsciiAlpha c = true) :
    isAsciiLowerAlpha (jsToLower c) = true := by
  unfold jsToLower
  by_cases hu : isAsciiUpperAlpha c = true
  · rw [if_pos hu]
    have hc : 65 ≤ c.toNat ∧ c.toNat ≤ 90 := by
      simp only [isAsciiUpperAlpha, Bool.and_eq_true, decide_eq_true_eq] at hu
      exact ⟨hu.1, hu.2⟩
    have hv : (Char.ofNat (c.toNat + 32)).toNat = c.toNat + 32 :=
      toNat_ofNat_of_lt _ (by omega)
    simp only [isAsciiLowerAlpha, Bool.and_eq_true, decide_eq_true_eq]
    constructor
    · show 'a'.toNat ≤ (Char.ofNat (c.toNat + 32)).toNat
      rw [hv, show 'a'.toNat = 97 from rfl]
      omega
    · show (Char.ofNat (c.toNat + 32)).toNat ≤ 'z'.toNat
      rw [hv, show 'z'.toNat = 122 from rfl]
      omega
  · rw [if_neg hu]
    simpa [isAsciiAlpha, hu] using h

theorem properNoun_false_of_allCaps {w : List Char} (h : isAllCaps w = true) :
    isLikelyProperNoun w = false := by
  cases w with
  | nil => rfl
  | cons c0 tl =>
    cases tl with
    | nil => rfl
    | cons c1 rest =>
      unfold isLikelyProperNoun
      rw [h]
      simp

/-- Evaluation of the shared flag decision once all lexical filters have
been passed. -/
theorem hardFlagWith_eval (f : List Char → Nat) (easySet : List (List Char))
    (t idx : Nat) (wOrig : List Char)
    (h1 : (stripApos wOrig).isEmpty = false)
    (h2 : isUrlLike (stripApos wOrig) = false)
    (h3 : isNumberLike (stripApos wOrig) = false)
    (h4 : ¬(0 < idx ∧ isLikelyProperNoun wOrig = true))
    (h5 : isAllCaps wOrig = false) :
    hardFlagWith f easySet t idx wOrig =
      (!(easySet.contains (lowerOf (stripApos wOrig))) &&
        decide (hardSyllThreshold t ≤ f (stripApos wOrig))) := by
  have hg1 : ((stripApos wOrig).isEmpty || isUrlLike (stripApos wOrig)
      || isNumberLike (stripApos wOrig)) = false := by
    rw [h1, h2, h3]
    rfl
  have hg2 : (decide (0 < idx) && isLikelyProperNoun wOrig) = false := by
    rcases Nat.eq_zero_or_pos idx with hz | hp
    · subst hz
      simp
    · have hpn : isLikelyProperNoun wOrig = false := by
        apply Bool.eq_false_iff.mpr
        intro hc
        exact h4 ⟨hp, hc⟩
      simp [hpn]
  simp [hardFlagWith, hg1, hg2, h5]

/-- Claim C9: `countSyllables` always returns at least 1 and returns
exactly 1 on words of length at most 3; variant B's `syllables` returns
at least 1 on any token made of letters and apostrophes/hyphens that
contains at least one letter. -/
theorem claim_C9 :
    (∀ w : List Char, 1 ≤ countSyllables w) ∧
    (∀ w : List Char, w.length ≤ 3 → countSyllables w = 1) ∧
    (∀ w : List Char, (∀ c ∈ w, isAsciiAlpha c = true ∨ c = apos ∨ c = '-') →
      (∃ c ∈ w, isAsciiAlpha c = true) → 1 ≤ syllables w) := by
  refine ⟨countSyllables_pos, fun w h => ?_, fun w hall hex => ?_⟩
  · simp only [countSyllables]
    rw [List.length_map, if_pos h]
  · obtain ⟨c, hc, hca⟩ := hex
    have hmem : jsToLower c ∈
        (w.map jsToLower).filter (fun c => isAsciiLowerAlpha c || c = apos) := by
      apply List.mem_filter.mpr
      exact ⟨List.mem_map_of_mem _ hc, by simp [jsToLower_lower hca]⟩
    have hne : ¬ ((w.map jsToLower).filter
        (fun c => isAsciiLowerAlpha c || c = apos)).isEmpty = true := by
      intro he
      rw [List.isEmpty_iff] at he
      rw [he] at hmem
      exact absurd hmem (List.not_mem_nil _)
    simp only [syllables]
    rw [if_neg hne]
    repeat' split
    all_goals first
    | decide
    | exact le_max_left 1 _

/-- Witness for C9 on concrete words. -/
theorem claim_C9_witness :
    1 ≤ countSyllables "cat".toList ∧ countSyllables "cat".toList = 1 ∧
      1 ≤ syllables "don".toList :=
  ⟨claim_C9.1 "cat".toList, claim_C9.2.1 "cat".toList (by decide),
   claim_C9.2.2 "don".toList (by decide) (by decide)⟩

/-- Claim C10: the easy-word set starts from the nonempty built-in seed
list, and every load outcome (failure, non-array payload, or an empty
fetched array) preserves nonemptiness. -/
theorem claim_C10 :
    MIN_EASY_WORDS ≠ [] ∧
    ∀ (cur : List (List Char)) (payload : Option (List (List Char))),
      cur ≠ [] → fetchedUpdate cur payload ≠ [] := by
  constructor
  · decide
  · intro cur payload h
    cases payload with
    | none => simpa [fetchedUpdate] using h
    | some l =>
      by_cases hl : l.isEmpty = true
      · simpa [fetchedUpdate, hl] using h
      · simp only [fetchedUpdate]
        rw [if_neg hl]
        intro hmap
        rw [List.map_eq_nil_iff] at hmap
        rw [hmap] at hl
        exact hl rfl

/-- Witness for C10: the seed set survives a successfully fetched empty
array unchanged and nonempty. -/
theorem claim_C10_witness :
    MIN_EASY_WORDS ≠ [] ∧ fetchedUpdate MIN_EASY_WORDS (some []) ≠ [] :=
  ⟨claim_C10.1, claim_C10.2 MIN_EASY_WORDS (some []) (by decide)⟩

/-- Claim C6: a token that passes the lexical filters is flagged in
either variant exactly when its syllable estimate reaches the
per-target threshold (6 → 3, 8 → 4, 10 → 5, default 3) and its
lowercased form is absent from the easy-word set. -/
theorem claim_C6 (easySet : List (List Char)) (t idx : Nat) (wOrig : List Char)
    (h1 : (stripApos wOrig).isEmpty = false)
    (h2 : isUrlLike (stripApos wOrig) = false)
    (h3 : isNumberLike (stripApos wOrig) = false)
    (h4 : ¬(0 < idx ∧ isLikelyProperNoun wOrig = true))
    (h5 : isAllCaps wOrig = false) :
    (hardFlagA easySet t idx wOrig = true ↔
      hardSyllThreshold t ≤ countSyllables (stripApos wOrig) ∧
        lowerOf (stripApos wOrig) ∉ easySet) ∧
    (hardFlagB easySet t idx wOrig = true ↔
      hardSyllThreshold t ≤ syllables (stripApos wOrig) ∧
        lowerOf (stripApos wOrig) ∉ easySet) ∧
    (hardSyllThreshold 6 = 3 ∧ hardSyllThreshold 8 = 4 ∧ hardSyllThreshold 10 = 5) ∧
    (t ≠ 6 → t ≠ 8 → t ≠ 10 → hardSyllThreshold t = 3) := by
  refine ⟨?_, ?_, ⟨rfl, rfl, rfl⟩, fun h6 h8 h10 => ?_⟩
  · rw [show hardFlagA easySet t idx wOrig = hardFlagWith countSyllables easySet t idx wOrig
        from rfl,
      hardFlagWith_eval countSyllables easySet t idx wOrig h1 h2 h3 h4 h5]
    simp [List.elem_iff, and_comm]
  · rw [show hardFlagB easySet t idx wOrig = hardFlagWith syllables easySet t idx wOrig
        from rfl,
      hardFlagWith_eval syllables easySet t idx wOrig h1 h2 h3 h4 h5]
    simp [List.elem_iff, and_comm]
  · unfold hardSyllThreshold
    rw [if_neg h6, if_neg h8, if_neg h10]

/-- Witness for C6 at the word "extraordinary" with target grade 8. -/
theorem claim_C6_witness :
    (stripApos "extraordinary".toList).isEmpty = false ∧
    (hardFlagA [] 8 0 "extraordinary".toList = true ↔
      hardSyllThreshold 8 ≤ countSyllables (stripApos "extraordinary".toList) ∧
        lowerOf (stripApos "extraordinary".toList) ∉ ([] : List (List Char))) :=
  ⟨by decide,
   (claim_C6 [] 8 0 "extraordinary".toList (by decide) (by decide) (by decide)
     (by decide) (by decide)).1⟩

/-- Claim C7: an all-caps token longer than one character is never
flagged; a capitalized-then-lowercase token in non-initial position is
never flagged; the same capitalized token in sentence-initial position
is decided purely by the syllable threshold and easy-word criteria. -/
theorem claim_C7 :
    (∀ (easySet : List (List Char)) (t idx : Nat) (w : List Char),
      1 < w.length → upperOf w = w → hardFlagA easySet t idx w = false) ∧
    (∀ (easySet : List (List Char)) (t idx : Nat) (c0 c1 : Char) (rest : List Char),
      isAsciiUpperAlpha c0 = true → isAsciiLowerAlpha c1 = true → 0 < idx →
      hardFlagA easySet t idx (c0 :: c1 :: rest) = false) ∧
    (∀ (easySet : List (List Char)) (t : Nat),
      hardFlagA easySet t 0 "Paris".toList =
        (!(easySet.contains (lowerOf (stripApos "Paris".toList))) &&
          decide (hardSyllThreshold t ≤ countSyllables (stripApos "Paris".toList)))) := by
  refine ⟨fun es t idx w hlen hupper => ?_, fun es t idx c0 c1 rest h0 h1 hidx => ?_,
    fun es t => rfl⟩
  · have hcaps : isAllCaps w = true := by
      simp [isAllCaps, hlen, hupper]
    have hpn := properNoun_false_of_allCaps hcaps
    show hardFlagWith countSyllables es t idx w = false
    by_cases hg1 : ((stripApos w).isEmpty || isUrlLike (stripApos w)
        || isNumberLike (stripApos w)) = true
    · simp [hardFlagWith, hg1]
    · have hg1f := eq_false_of_ne_true hg1
      simp [hardFlagWith, hg1f, hpn, hcaps]
  · have hne := jsToUpper_ne_self h1
    have hcaps : isAllCaps (c0 :: c1 :: rest) = false := by
      apply Bool.eq_false_iff.mpr
      intro hc
      rw [isAllCaps, Bool.and_eq_true] at hc
      have hmap := eq_of_beq hc.2
      rw [upperOf, List.map_cons, List.map_cons] at hmap
      injection hmap with e0 hmap
      injection hmap with e1 _
      exact hne e1
    have hpn : isLikelyProperNoun (c0 :: c1 :: rest) = true := by
      unfold isLikelyProperNoun
      simp [h0, h1, hcaps]
    show hardFlagWith countSyllables es t idx (c0 :: c1 :: rest) = false
    by_cases hg1 : ((stripApos (c0 :: c1 :: rest)).isEmpty
        || isUrlLike (stripApos (c0 :: c1 :: rest))
        || isNumberLike (stripApos (c0 :: c1 :: rest))) = true
    · simp [hardFlagWith, hg1]
    · have hg1f := eq_false_of_ne_true hg1
      simp [hardFlagWith, hg1f, hpn, hidx]

/-- Witness for C7 on "THE" and "Paris". -/
theorem claim_C7_witness :
    hardFlagA [] 6 0 "THE".toList = false ∧
    hardFlagA [] 6 5 "Paris".toList = false ∧
    hardFlagA [] 6 0 "Paris".toList =
      (!(([] : List (List Char)).contains (lowerOf (stripApos "Paris".toList))) &&
        decide (hardSyllThreshold 6 ≤ countSyllables (stripApos "Paris".toList))) :=
  ⟨claim_C7.1 [] 6 0 "THE".toList (by decide) (by decide),
   claim_C7.2.1 [] 6 5 'P' 'a' "ris".toList (by decide) (by decide) (by decide),
   claim_C7.2.2 [] 6⟩

/- -------- helper lemmas for the scoring-safety claim -------- -/

theorem countSentences_pos (text : List Char) : 1 ≤ countSentences text := by
  simp only [countSentences]
  split
  · exact le_refl 1
  · omega

theorem runsAux_eq_nil {p : Char → Bool} {cur : List Char} {l : List Char}
    (h : runsAux p cur l = []) : cur = [] ∧ ∀ c ∈ l, p c = false := by
  induction l generalizing cur with
  | nil =>
    unfold runsAux at h
    by_cases hc : cur.isEmpty = true
    · exact ⟨List.isEmpty_iff.mp hc, by simp⟩
    · rw [if_neg hc] at h
      simp at h
  | cons c cs ih =>
    unfold runsAux at h
    by_cases hp : p c = true
    · rw [if_pos hp] at h
      exact absurd (ih h).1 (by simp)
    · rw [if_neg hp] at h
      by_cases hc : cur.isEmpty = true
      · rw [if_pos hc] at h
        refine ⟨List.isEmpty_iff.mp hc, ?_⟩
        intro x hx
        rcases List.mem_cons.mp hx with hx | hx
        · subst hx
          exact eq_false_of_ne_true hp
        · exact (ih h).2 x hx
      · rw [if_neg hc] at h
        simp at h

theorem trim_nil_of_wordsOf_nil {s : List Char} (h : wordsOf s = []) : trim s = [] := by
  have h2 := runsAux_eq_nil h
  have hall : ∀ c ∈ s, isWS c = true := by
    intro c hc
    have := h2.2 c hc
    simpa using this
  unfold trim
  rw [List.dropWhile_eq_nil_iff.mpr (fun x hx => hall x hx)]
  rfl

theorem fkSyllableSum_analyzeTokens_pos (s : List Char) :
    1 ≤ fkSyllableSum (analyzeTokens s) := by
  unfold analyzeTokens
  by_cases ht : (trim s).isEmpty = true
  · rw [if_pos ht]
    decide
  · rw [if_neg ht]
    have hwne : wordsOf s ≠ [] := by
      intro hnil
      rw [trim_nil_of_wordsOf_nil hnil] at ht
      exact ht rfl
    obtain ⟨w, rest, hw⟩ := List.exists_cons_of_ne_nil hwne
    rw [hw]
    show 1 ≤ ((w :: rest).map countSyllables).sum
    rw [List.map_cons, List.sum_cons]
    exact le_trans (countSyllables_pos w) (Nat.le_add_right _ _)

theorem jsDiv_finite {a b : ℚ} (hb : b ≠ 0) : ∃ q, jsDiv a b = JsNum.finite q :=
  ⟨a / b, by unfold jsDiv; rw [if_pos hb]⟩

theorem scaleJs_finite (c : ℚ) {a : JsNum} (ha : ∃ q, a = JsNum.finite q) :
    ∃ q, scaleJs c a = JsNum.finite q := by
  obtain ⟨qa, rfl⟩ := ha
  exact ⟨c * qa, rfl⟩

theorem addJs_finite {a b : JsNum} (ha : ∃ q, a = JsNum.finite q)
    (hb : ∃ q, b = JsNum.finite q) : ∃ q, addJs a b = JsNum.finite q := by
  obtain ⟨qa, rfl⟩ := ha
  obtain ⟨qb, rfl⟩ := hb
  exact ⟨qa + qb, rfl⟩

theorem roundJs_finite {a : JsNum} (ha : ∃ q, a = JsNum.finite q) :
    ∃ q, roundJs a = JsNum.finite q := by
  obtain ⟨qa, rfl⟩ := ha
  exact ⟨_, rfl⟩

theorem analyzeSentence_grade_finite {s : List Char} (h : 1 ≤ countWords s) :
    ∃ q, (analyzeSentence s).grade = JsNum.finite q := by
  have hne : ((countWords s : ℚ)) ≠ 0 := Nat.cast_ne_zero.mpr (by omega)
  exact roundJs_finite (addJs_finite
    (addJs_finite (scaleJs_finite _ (jsDiv_finite one_ne_zero))
      (scaleJs_finite _ (jsDiv_finite hne)))
    ⟨_, rfl⟩)

theorem fk_finite (text : List Char) :
    ∃ q, calculateFleschKincaidGrade text = JsNum.finite q := by
  have hsent : ((countSentences text : ℚ)) ≠ 0 :=
    Nat.cast_ne_zero.mpr (by have := countSentences_pos text; omega)
  have hwc : (((if (wordsOf text).length = 0 then 1 else (wordsOf text).length : Nat) : ℚ)) ≠ 0 := by
    apply Nat.cast_ne_zero.mpr
    split <;> omega
  exact roundJs_finite (addJs_finite
    (addJs_finite (scaleJs_finite _ (jsDiv_finite hsent))
      (scaleJs_finite _ (jsDiv_finite hwc)))
    ⟨_, rfl⟩)

theorem ease_finite (text : List Char) :
    ∃ q, calculateFleschReadingEase text = JsNum.finite q := by
  have hsent : ((countSentences text : ℚ)) ≠ 0 :=
    Nat.cast_ne_zero.mpr (by have := countSentences_pos text; omega)
  have hwc : (((if (wordsOf text).length = 0 then 1 else (wordsOf text).length : Nat) : ℚ)) ≠ 0 := by
    apply Nat.cast_ne_zero.mpr
    split <;> omega
  exact roundJs_finite (addJs_finite
    (addJs_finite ⟨_, rfl⟩ (scaleJs_finite _ (jsDiv_finite hsent)))
    (scaleJs_finite _ (jsDiv_finite hwc)))

theorem analyzeSentence_grade_of_zero {s : List Char} (hw : countWords s = 0) :
    (analyzeSentence s).grade = JsNum.posInf := by
  have hnil : wordsOf s = [] := List.length_eq_zero.mp hw
  have ht : trim s = [] := trim_nil_of_wordsOf_nil hnil
  have hsy : fkSyllableSum (analyzeTokens s) = 1 := by
    unfold analyzeTokens
    rw [if_pos (by rw [ht]; rfl)]
    rfl
  show roundJs (addJs (addJs
      (scaleJs ((39 : ℚ) / 100) (jsDiv ((countWords s : ℚ)) 1))
      (scaleJs ((59 : ℚ) / 5)
        (jsDiv ((fkSyllableSum (analyzeTokens s) : ℚ)) ((countWords s : ℚ)))))
      (JsNum.finite (-(1559 : ℚ) / 100))) = JsNum.posInf
  rw [hw, hsy]
  norm_num [jsDiv, scaleJs, addJs, roundJs]

theorem analyzeSentence_grade_ne_nan (s : List Char) :
    (analyzeSentence s).grade ≠ JsNum.nan := by
  by_cases h : 1 ≤ countWords s
  · obtain ⟨q, hq⟩ := analyzeSentence_grade_finite h
    rw [hq]
    exact fun hc => JsNum.noConfusion hc
  · rw [analyzeSentence_grade_of_zero (by omega)]
    exact fun hc => JsNum.noConfusion hc

/-- Claim C3 counterexample: on the empty string `analyzeSentence` does
NOT floor its word count at 1 — the count stays 0 and the resulting
grade is the JS value Infinity, not a finite score. -/
theorem claim_C3_counterexample :
    (analyzeSentence ([] : List Char)).wordCount = 0 ∧
    (analyzeSentence ([] : List Char)).grade = JsNum.posInf ∧
    ¬ ∃ q, (analyzeSentence ([] : List Char)).grade = JsNum.finite q := by
  refine ⟨by decide, by decide, ?_⟩
  intro ⟨q, hq⟩
  rw [show (analyzeSentence ([] : List Char)).grade = JsNum.posInf from by decide] at hq
  exact JsNum.noConfusion hq

/-- Claim C3 as amended: the two global scorers floor their counts and
always return a finite score; `analyzeSentence` never raises and never
returns NaN, and its grade is finite whenever the sentence has at least
one word — but on zero-word input its unfloored word count yields the
JS value Infinity instead of a finite score. -/
theorem claim_C3_amended (text s : List Char) :
    (∃ q, calculateFleschKincaidGrade text = JsNum.finite q) ∧
    (∃ q, calculateFleschReadingEase text = JsNum.finite q) ∧
    1 ≤ countSentences text ∧
    (analyzeSentence s).grade ≠ JsNum.nan ∧
    (1 ≤ countWords s → ∃ q, (analyzeSentence s).grade = JsNum.finite q) :=
  ⟨fk_finite text, ease_finite text, countSentences_pos text,
   analyzeSentence_grade_ne_nan s, fun h => analyzeSentence_grade_finite h⟩

/-- Witness for the amended C3 on a concrete sentence. -/
theorem claim_C3_witness :
    (∃ q, calculateFleschKincaidGrade "The cat sat.".toList = JsNum.finite q) ∧
    1 ≤ countWords "The cat sat.".toList ∧
    (∃ q, (analyzeSentence "The cat sat.".toList).grade = JsNum.finite q) :=
  ⟨(claim_C3_amended "The cat sat.".toList "The cat sat.".toList).1,
   by decide,
   (claim_C3_amended "The cat sat.".toList "The cat sat.".toList).2.2.2.2 (by decide)⟩

/- -------- helper lemmas for the offset round-trip claim -------- -/

theorem indexOfFromGo_sound {text pat : List Char} :
    ∀ {fuel i j : Nat}, indexOfFromGo text pat fuel i = some j →
      (text.drop j).take pat.length = pat := by
  intro fuel
  induction fuel with
  | zero =>
    intro i j h
    exact absurd h (by simp [indexOfFromGo])
  | succ n ih =>
    intro i j h
    unfold indexOfFromGo at h
    by_cases hm : matchesAt text pat i = true
    · rw [if_pos hm] at h
      injection h with hj
      subst hj
      exact eq_of_beq hm
    · rw [if_neg hm] at h
      by_cases hi : i < text.length
      · rw [if_pos hi] at h
        exact ih h
      · rw [if_neg hi] at h
        exact absurd h (by simp)

theorem indexOfFrom_sound {text pat : List Char} {start j : Nat}
    (h : indexOfFrom text pat start = some j) :
    (text.drop j).take pat.length = pat :=
  indexOfFromGo_sound h

theorem take_min_length (l : List Char) (k : Nat) : l.take (min k l.length) = l.take k := by
  rcases le_total k l.length with h | h
  · rw [min_eq_left h]
  · rw [min_eq_right h, List.take_of_length_le h, List.take_length]

theorem wordMatchesGo_sound {s : List Char} :
    ∀ {fuel p i : Nat} {tok : List Char},
      (i, tok) ∈ wordMatchesGo s fuel p → tok = (s.drop i).take tok.length := by
  intro fuel
  induction fuel with
  | zero =>
    intro p i tok h
    exact absurd h (by simp [wordMatchesGo])
  | succ n ih =>
    intro p i tok h
    unfold wordMatchesGo at h
    by_cases hp : p < s.length
    · rw [if_pos hp] at h
      by_cases hb : (boundaryAt s p &&
          (match s[p]? with | some c => isTokChar c | none => false)) = true
      · rw [if_pos hb] at h
        cases hbo : backOff s p (runLenAt s p) with
        | none =>
          rw [hbo] at h
          exact ih h
        | some k =>
          rw [hbo] at h
          rcases List.mem_cons.mp h with he | ht
          · rw [Prod.mk.injEq] at he
            obtain ⟨h1, h2⟩ := he
            subst h1
            rw [h2, List.length_take, List.length_drop]
            conv_rhs =>
              rw [show s.length - i = (s.drop i).length from (List.length_drop i s).symm]
            rw [take_min_length]
          · exact ih ht
      · rw [if_neg hb] at h
        exact ih h
    · rw [if_neg hp] at h
      exact absurd h (by simp)

theorem wordMatches_sound {s : List Char} {i : Nat} {tok : List Char}
    (h : (i, tok) ∈ wordMatches s) : tok = (s.drop i).take tok.length :=
  wordMatchesGo_sound h

/-- Composing the sentence slice with a token slice inside it. -/
theorem sub_slice {text s tok : List Char} {j i : Nat}
    (hs : (text.drop j).take s.length = s)
    (htok : tok = (s.drop i).take tok.length) :
    (text.drop (j + i)).take tok.length = tok := by
  have hlen : tok.length ≤ s.length - i := by
    have h1 : tok.length = min tok.length (s.length - i) := by
      conv_lhs => rw [htok]
      rw [List.length_take, List.length_drop]
    omega
  have hdrop : s.drop i = (text.drop (j + i)).take (s.length - i) := by
    conv_lhs => rw [← hs]
    rw [List.drop_take, List.drop_drop]
  conv_rhs => rw [htok, hdrop]
  rw [List.take_take, min_eq_left hlen]

theorem buildGo_sound (cfg : Config) (blockFrom : Nat) (text : List Char) :
    ∀ (parts : List (List Char)) (searchFrom : Nat) (ann : Ann),
      ann ∈ buildGo cfg blockFrom text parts searchFrom →
      ∃ rel, ann.fromPos = blockFrom + rel ∧
        (text.drop rel).take ann.frag.length = ann.frag ∧
        ann.toPos = ann.fromPos + ann.frag.length := by
  intro parts
  induction parts with
  | nil =>
    intro sf ann h
    exact absurd h (by simp [buildGo])
  | cons raw rest ih =>
    intro sf ann h
    simp only [buildGo] at h
    by_cases hs : (trim raw).isEmpty = true
    · rw [if_pos hs] at h
      exact ih _ ann h
    · rw [if_neg hs] at h
      cases hidx : indexOfFrom text (trim raw) sf with
      | none =>
        rw [hidx] at h
        exact ih _ ann h
      | some j =>
        rw [hidx] at h
        have hsl : (text.drop j).take (trim raw).length = trim raw :=
          indexOfFrom_sound hidx
        rcases List.mem_append.mp h with hsent | h2
        · -- the sentence-level annotation, if the classifier fired
          rcases hcol : classifyAJs (analyzeSentence (trim raw)).wordCount
              (analyzeSentence (trim raw)).grade ((cfg.targetGrade : ℚ)) with _ | c
          · rw [hcol] at hsent
            exact absurd hsent (by simp)
          · rw [hcol] at hsent
            rcases List.mem_singleton.mp hsent with rfl
            exact ⟨j, rfl, hsl, rfl⟩
        · rcases List.mem_append.mp h2 with hword | hrec
          · -- a word-level annotation
            by_cases hshow : cfg.showHardWords = true
            · rw [if_pos hshow] at hword
              unfold emitWordAnns at hword
              obtain ⟨pr, hpr, hsome⟩ := List.mem_filterMap.mp hword
              by_cases hflag : hardFlagA cfg.easySet cfg.targetGrade pr.1 pr.2.2 = true
              · rw [if_pos hflag] at hsome
                injection hsome with hann
                subst hann
                have hmem : (pr.2.1, pr.2.2) ∈ wordMatches (trim raw) :=
                  List.snd_mem_of_mem_enum hpr
                have htok := wordMatches_sound hmem
                refine ⟨j + pr.2.1,
                  by show blockFrom + j + pr.2.1 = blockFrom + (j + pr.2.1); omega, ?_, rfl⟩
                exact sub_slice hsl htok
              · rw [if_neg hflag] at hsome
                exact absurd hsome (by simp)
            · rw [if_neg hshow] at hword
              exact absurd hword (by simp)
          · exact ih _ ann hrec

/-- Claim C5: every annotation emitted for a block — sentence-level or
word-level — carries offsets that, relative to the block's start
offset, slice the block text back to exactly the fragment that was
analyzed (and the range length equals that fragment's length). -/
theorem claim_C5 (cfg : Config) (blockFrom : Nat) (text : List Char) (ann : Ann)
    (h : ann ∈ buildBlockDecorations cfg blockFrom text) :
    ∃ rel, ann.fromPos = blockFrom + rel ∧
      (text.drop rel).take ann.frag.length = ann.frag ∧
      ann.toPos = ann.fromPos + ann.frag.length :=
  buildGo_sound cfg blockFrom text (splitIntoSentences text) 0 ann h

/-- Witness for C5: on the block "Big extraordinary." with target 6,
the emitted hard-word annotation for "extraordinary" round-trips. -/
theorem claim_C5_witness :
    (⟨5, 18, "extraordinary".toList, AnnKind.word⟩ : Ann) ∈
      buildBlockDecorations ⟨6, true, []⟩ 1 "Big extraordinary.".toList ∧
    ∃ rel, (⟨5, 18, "extraordinary".toList, AnnKind.word⟩ : Ann).fromPos = 1 + rel ∧
      ("Big extraordinary.".toList.drop rel).take
          (⟨5, 18, "extraordinary".toList, AnnKind.word⟩ : Ann).frag.length =
        (⟨5, 18, "extraordinary".toList, AnnKind.word⟩ : Ann).frag ∧
      (⟨5, 18, "extraordinary".toList, AnnKind.word⟩ : Ann).toPos =
        (⟨5, 18, "extraordinary".toList, AnnKind.word⟩ : Ann).fromPos +
          (⟨5, 18, "extraordinary".toList, AnnKind.word⟩ : Ann).frag.length :=
  ⟨by decide, claim_C5 ⟨6, true, []⟩ 1 "Big extraordinary.".toList _ (by decide)⟩

end SentenceScratcher
